import Mathlib

/-!
# Verification of the `WafHttpApi` configuration resolver

Shallow embedding of the configuration-resolution and validation logic of the
`WafHttpApi` CDK construct (`src/unnamed/part_007`, second revision, the one
carrying custom-domain support).  JavaScript strings are modelled as Lean
`String` / `List Char`; `undefined`-able inputs as `Option`; thrown errors as
`Except`; `console.warn` advisories as an accumulated list of warning tags.

Notes on faithfulness:
* `domain.split(".")` / `arn.split(":")` are modelled by `splitOnChar`, which
  reproduces JavaScript `String.prototype.split` on a single-character
  separator (`"".split(x) = [""]`, separators at the ends produce empty parts).
* The anchored regex
  `/^(\*\.)?([a-zA-Z0-9]([a-zA-Z0-9-]{0,61}[a-zA-Z0-9])?\.)*[a-zA-Z0-9]([a-zA-Z0-9-]{0,61}[a-zA-Z0-9])?\.([a-zA-Z]{2,})$/`
  is modelled by `domainRegexTest`.  Because the label alternatives
  `[a-zA-Z0-9]([a-zA-Z0-9-]{0,61}[a-zA-Z0-9])?` and the TLD `[a-zA-Z]{2,}`
  cannot contain a literal dot, any match of the anchored pattern must align
  its literal `\.` separators exactly with the dots of the subject string, so
  the pattern matches iff: after optionally removing a leading `*.` (the only
  way a string starting with `*.` can match, since `*` is in no character
  class), splitting on `.` yields at least two parts, every part but the last
  matches the label alternative, and the last part matches `[a-zA-Z]{2,}`.
  The label alternative itself is the set of strings of length 1..63 whose
  first and last characters are alphanumeric and whose interior characters
  are alphanumeric or `-`.
* JS truthiness: an optional string is truthy iff it is present and nonempty
  (`strTruthy`); an optional object reference is truthy iff present.
-/

namespace WafHttpApi

/-- Character class `[a-zA-Z0-9-]` of the domain regex. -/
def isLabelChar (c : Char) : Bool := c.isAlphanum || c == '-'

/-- JavaScript `String.prototype.split` on a one-character separator,
on the character-list view of the string.  `split` of the empty string is
`[""]`; a separator at either end contributes an empty part. -/
def splitOnChar (sep : Char) : List Char → List (List Char)
  | [] => [[]]
  | c :: cs =>
    let rest := splitOnChar sep cs
    if c = sep then [] :: rest
    else (c :: rest.headD []) :: rest.tail

/-- The label alternative `[a-zA-Z0-9]([a-zA-Z0-9-]{0,61}[a-zA-Z0-9])?` of the
domain regex: nonempty, at most 63 characters, first and last characters
alphanumeric, interior characters alphanumeric or hyphen. -/
def matchesLabel (l : List Char) : Bool :=
  !l.isEmpty && decide (l.length ≤ 63) &&
    (l.headD ' ').isAlphanum && (l.getLastD ' ').isAlphanum &&
    (l.dropLast.drop 1).all isLabelChar

/-- The TLD part `[a-zA-Z]{2,}` of the domain regex. -/
def matchesTld (l : List Char) : Bool :=
  decide (2 ≤ l.length) && l.all Char.isAlpha

/-- The regex body `([a-zA-Z0-9](…)?\.)*[a-zA-Z0-9](…)?\.([a-zA-Z]{2,})`
after the optional wildcard prefix: splitting on `.` yields at least two
parts, all but the last being labels and the last a TLD. -/
def matchesBody (s : List Char) : Bool :=
  let parts := splitOnChar '.' s
  decide (2 ≤ parts.length) && parts.dropLast.all matchesLabel &&
    matchesTld (parts.getLast?.getD [])

/-- `domainRegex.test(domain)` of `validateDomainFormat`
(`src/unnamed/part_007` lines 979-980, 1026). -/
def domainRegexTest (s : List Char) : Bool :=
  if s.take 2 = ['*', '.'] then matchesBody (s.drop 2) else matchesBody s

/-- The pre-check of `validateDomainFormat` (lines 1008-1024):
`domain.startsWith("*.") && domain.substring(2).includes("*")`. -/
def wildcardViolation (s : List Char) : Bool :=
  if s.take 2 = ['*', '.'] then (s.drop 2).contains '*' else false

/-- The four messages thrown by `validateDomainFormat`, every one of them an
invalid-domain-format diagnostic ("Invalid domain format: Domain must be a
non-empty string", "… exceeds maximum length of 253 characters",
"Invalid wildcard domain format: … contains multiple wildcards",
"Invalid domain format: … is not a valid domain name"). -/
inductive DomainFormatError
  | emptyDomain
  | tooLong (length : Nat)
  | multipleWildcards
  | patternMismatch
deriving DecidableEq, Repr

/-- `validateDomainFormat` (lines 971-1041) on the character list of the
domain.  Check order as in the source: emptiness, length, wildcard pre-check,
regex. -/
def validateDomainFormatChars (chars : List Char) : Except DomainFormatError Unit :=
  if chars = [] then .error .emptyDomain
  else if 253 < chars.length then .error (.tooLong chars.length)
  else if wildcardViolation chars then .error .multipleWildcards
  else if domainRegexTest chars then .ok () else .error .patternMismatch

/-- `validateDomainFormat` (lines 971-1041). -/
def validateDomainFormat (domain : String) : Except DomainFormatError Unit :=
  validateDomainFormatChars domain.data

/-- Errors thrown by `validateCertificateRegion` (lines 1051-1102) and
`validateCertificateDomainCompatibility` (lines 1113-1186). -/
inductive CertificateError
  | arnNotAvailable
  | invalidArnFormat (arn : String)
  | regionMismatch (certificateRegion : String) (mandatedRegion : String)
  | compatibilityMissingParams
  | compatibilityArnNotAvailable (domain : String)
deriving DecidableEq, Repr

/-- `certificateArn.split(":")`. -/
def jsSplit (sep : Char) (s : String) : List String :=
  (splitOnChar sep s.data).map String.mk

/-- `validateCertificateRegion` (lines 1051-1102).  The certificate is
modelled by its ARN; a certificate whose ARN is not available is modelled by
the empty ARN (`!certificateArn`). -/
def validateCertificateRegion (certificateArn : String) : Except CertificateError Unit :=
  if certificateArn = "" then .error .arnNotAvailable
  else
    let arnParts := jsSplit ':' certificateArn
    if arnParts.length < 4 then .error (.invalidArnFormat certificateArn)
    else
      let certificateRegion := arnParts.getD 3 ""
      if certificateRegion ≠ "us-east-1" then
        .error (.regionMismatch certificateRegion "us-east-1")
      else .ok ()

/-- The advisory `console.warn` messages the resolver can emit. -/
inductive Warning
  | certificateWithoutDomainIgnored
  | hostedZoneWithoutDomainIgnored
  | wildcardCompatibilityLimited (domain certificateArn : String)
  | fullCompatibilityRequiresRuntime (domain certificateArn : String)
deriving DecidableEq, Repr

/-- `validateCertificateDomainCompatibility` (lines 1113-1186): only basic
presence checks can fail; otherwise it emits an advisory (wildcard-limited or
runtime-required) and returns.  The certificate object itself is present
whenever this is called, so of `!certificate || !domain` only the domain
emptiness can fire. -/
def validateCertificateDomainCompatibility (certificateArn domain : String) :
    Except CertificateError (List Warning) :=
  if domain = "" then .error .compatibilityMissingParams
  else if certificateArn = "" then .error (.compatibilityArnNotAvailable domain)
  else if domain.data.take 2 = ['*', '.'] then
    .ok [.wildcardCompatibilityLimited domain certificateArn]
  else .ok [.fullCompatibilityRequiresRuntime domain certificateArn]

/-- Errors thrown by `validateHostedZoneDomainCompatibility` (lines
1197-1289). -/
inductive ZoneCompatError
  | missingParams
  | zoneNameNotAvailable (domain : String)
  | zoneDomainMismatch (domain : String) (hostedZoneName : String)
deriving DecidableEq, Repr

/-- `name.toLowerCase().replace(/\.$/, "")`: lower-case, then strip a single
trailing dot (ASCII lower-casing, which is all the validation grammar can
produce). -/
def normalizeName (l : List Char) : List Char :=
  let lowered := l.map Char.toLower
  match lowered.getLast? with
  | some '.' => lowered.dropLast
  | _ => lowered

/-- `validateHostedZoneDomainCompatibility` (lines 1197-1289).  The hosted
zone is modelled by its `zoneName`; the zone object itself is present whenever
this is called, so of `!hostedZone || !domain` only the domain emptiness can
fire, and `!hostedZoneName` fires on an empty zone name. -/
def validateHostedZoneDomainCompatibility (hostedZoneName domain : String) :
    Except ZoneCompatError Unit :=
  if domain = "" then .error .missingParams
  else if hostedZoneName = "" then .error (.zoneNameNotAvailable domain)
  else
    let normalizedHostedZone := normalizeName hostedZoneName.data
    let normalizedDomain := normalizeName domain.data
    if normalizedDomain = normalizedHostedZone then .ok ()
    else if ('.' :: normalizedHostedZone).isSuffixOf normalizedDomain then .ok ()
    else if normalizedDomain.take 2 = ['*', '.'] then
      let wildcardBase := normalizedDomain.drop 2
      if wildcardBase = normalizedHostedZone then .ok ()
      else if ('.' :: normalizedHostedZone).isSuffixOf wildcardBase then .ok ()
      else .error (.zoneDomainMismatch domain hostedZoneName)
    else .error (.zoneDomainMismatch domain hostedZoneName)

/-- `managedRuleGroupStatement` of a WAF rule. -/
structure ManagedRuleGroupStatement where
  vendorName : String
  name : String
deriving DecidableEq, Repr

/-- The statement of a WAF rule: the managed-rule-group form used by the
default rules, or any other caller-supplied statement (opaque). -/
inductive RuleStatement
  | managedRuleGroup (statement : ManagedRuleGroupStatement)
  | other (tag : String)
deriving DecidableEq, Repr

/-- `overrideAction` of a WAF rule (`{ none: {} }` or `{ count: {} }`). -/
inductive OverrideAction
  | none
  | count
deriving DecidableEq, Repr

/-- `visibilityConfig` of a WAF rule. -/
structure VisibilityConfig where
  cloudWatchMetricsEnabled : Bool
  metricName : String
  sampledRequestsEnabled : Bool
deriving DecidableEq, Repr

/-- `wafv2.CfnWebACL.RuleProperty`, restricted to the fields this construct
reads or writes. -/
structure RuleProperty where
  name : String
  priority : Nat
  statement : RuleStatement
  overrideAction : Option OverrideAction
  action : Option String
  visibilityConfig : VisibilityConfig
deriving DecidableEq, Repr

/-- `createDefaultRules` (lines 1298-1336). -/
def createDefaultRules : List RuleProperty :=
  [ { name := "AWS-AWSManagedRulesAmazonIpReputationList"
      priority := 1
      statement := .managedRuleGroup ⟨"AWS", "AWSManagedRulesAmazonIpReputationList"⟩
      overrideAction := some .none
      action := Option.none
      visibilityConfig :=
        ⟨true, "awsManagedRulesAmazonIpReputationList", true⟩ },
    { name := "AWS-AWSManagedRulesCommonRuleSet"
      priority := 2
      statement := .managedRuleGroup ⟨"AWS", "AWSManagedRulesCommonRuleSet"⟩
      overrideAction := some .none
      action := Option.none
      visibilityConfig :=
        ⟨true, "awsManagedRulesCommonRuleSet", true⟩ } ]

/-- `const rules = props.wafRules ?? this.createDefaultRules()` (line 838):
nullish coalescing, so any supplied list (even the empty one) is used
verbatim. -/
def resolveWafRules (wafRules : Option (List RuleProperty)) : List RuleProperty :=
  match wafRules with
  | some rs => rs
  | none => createDefaultRules

/-- `WafHttpApiProps` restricted to the configuration the resolver reads.
The certificate is modelled by its ARN, the hosted zone by its zone name. -/
structure WafHttpApiProps where
  domain : Option String
  certificate : Option String
  hostedZone : Option String
  wafRules : Option (List RuleProperty)

/-- JS truthiness of an optional string: present and nonempty. -/
def strTruthy : Option String → Bool
  | some s => s ≠ ""
  | none => false

/-- JavaScript `String.prototype.trim` (on the relevant ASCII whitespace). -/
def jsTrim (l : List Char) : List Char :=
  ((l.dropWhile Char.isWhitespace).reverse.dropWhile Char.isWhitespace).reverse

/-- The certificate finally stored in `this.certificate`: the caller-supplied
one (line 734) or the auto-generated `acm.Certificate` (lines 764-770). -/
inductive EffectiveCertificate
  | provided (certificateArn : String)
  | autoGenerated (domainName : String)
deriving DecidableEq, Repr

/-- The errors the constructor can raise, each wrapping the validator error it
re-throws (with added context in the message, which does not change the error
identity). -/
inductive ConstructError
  | hostedZoneRequired (domain : String)
  | invalidDomain (e : DomainFormatError)
  | certificateValidationFailed (e : CertificateError)
  | hostedZoneValidationFailed (e : ZoneCompatError)
deriving DecidableEq, Repr

/-- The observable outcome of a successful construction. -/
structure ResolvedConfig where
  customDomain : Option String
  certificate : Option EffectiveCertificate
  aRecordCreated : Bool
  aaaaRecordCreated : Bool
  rules : List RuleProperty
  warnings : List Warning
deriving DecidableEq, Repr

/-- Constructor lines 691-722: domain presence (`props.domain !== undefined`),
hosted-zone requirement (`!props.hostedZone`, object truthiness), then domain
format validation, then `this.customDomain = props.domain`. -/
def resolveDomainStage (props : WafHttpApiProps) : Except ConstructError (Option String) :=
  match props.domain with
  | some d =>
    if props.hostedZone.isNone then .error (.hostedZoneRequired d)
    else
      match validateDomainFormat d with
      | .error e => .error (.invalidDomain e)
      | .ok _ => .ok (some d)
  | none => .ok none

/-- Constructor lines 724-793: certificate handling.  `if (props.certificate)`
is object truthiness (presence); the inner `if (props.domain)` is string
truthiness.  Region validation runs before the domain-presence branch. -/
def resolveCertificateStage (props : WafHttpApiProps) :
    Except ConstructError (Option EffectiveCertificate × List Warning) :=
  match props.certificate with
  | some arn =>
    match validateCertificateRegion arn with
    | .error e => .error (.certificateValidationFailed e)
    | .ok _ =>
      if strTruthy props.domain then
        match validateCertificateDomainCompatibility arn (props.domain.getD "") with
        | .error e => .error (.certificateValidationFailed e)
        | .ok ws => .ok (some (.provided arn), ws)
      else .ok (none, [.certificateWithoutDomainIgnored])
  | none =>
    if strTruthy props.domain && !(jsTrim (props.domain.getD "").data).isEmpty then
      .ok (some (.autoGenerated (props.domain.getD "")), [])
    else .ok (none, [])

/-- Constructor lines 795-829: hosted-zone handling.  `if (props.hostedZone)`
is object truthiness (presence); the inner `if (props.domain)` is string
truthiness. -/
def resolveHostedZoneStage (props : WafHttpApiProps) :
    Except ConstructError (List Warning) :=
  match props.hostedZone with
  | some zoneName =>
    if strTruthy props.domain then
      match validateHostedZoneDomainCompatibility zoneName (props.domain.getD "") with
      | .error e => .error (.hostedZoneValidationFailed e)
      | .ok _ => .ok []
    else .ok [.hostedZoneWithoutDomainIgnored]
  | none => .ok []

/-- Constructor lines 902-960: `if (props.hostedZone && props.domain)` guards
the creation of both DNS records. -/
def dnsRecordsCreated (props : WafHttpApiProps) : Bool :=
  props.hostedZone.isSome && strTruthy props.domain

/-- The `WafHttpApi` constructor (lines 592-961) as a configuration resolver:
domain stage, then certificate stage, then hosted-zone stage (this is the
order of the source blocks, and hence the order in which errors surface),
then rule resolution and DNS-record creation. -/
def wafHttpApiResolve (props : WafHttpApiProps) : Except ConstructError ResolvedConfig :=
  match resolveDomainStage props with
  | .error e => .error e
  | .ok customDomain =>
    match resolveCertificateStage props with
    | .error e => .error e
    | .ok (certificate, certWarnings) =>
      match resolveHostedZoneStage props with
      | .error e => .error e
      | .ok zoneWarnings =>
        let dns := dnsRecordsCreated props
        .ok { customDomain := customDomain
              certificate := certificate
              aRecordCreated := dns
              aaaaRecordCreated := dns
              rules := resolveWafRules props.wafRules
              warnings := certWarnings ++ zoneWarnings }

end WafHttpApi

namespace WafHttpApi

/-! ## Generic facts about the resolver -/

/-- A successful resolution always carries `props.wafRules ?? createDefaultRules()`
as its rule list. -/
theorem resolve_ok_rules {props : WafHttpApiProps} {r : ResolvedConfig}
    (h : wafHttpApiResolve props = .ok r) :
    r.rules = resolveWafRules props.wafRules := by
  unfold wafHttpApiResolve at h
  cases h1 : resolveDomainStage props with
  | error e => rw [h1] at h; cases h
  | ok cd =>
    rw [h1] at h
    cases h2 : resolveCertificateStage props with
    | error e => rw [h2] at h; cases h
    | ok cw =>
      rw [h2] at h
      cases h3 : resolveHostedZoneStage props with
      | error e => rw [h3] at h; cases h
      | ok zw => rw [h3] at h; cases h; rfl

/-- Shared concrete input: the configuration bundle with none of the four
optional inputs supplied. -/
def noInputProps : WafHttpApiProps :=
  ⟨Option.none, Option.none, Option.none, Option.none⟩

/-- The resolved configuration `noInputProps` produces. -/
def noInputResolved : ResolvedConfig :=
  { customDomain := Option.none
    certificate := Option.none
    aRecordCreated := false
    aaaaRecordCreated := false
    rules := createDefaultRules
    warnings := [] }

/-! ## C3 -/

/-- **C3.** If a domain is supplied (defined) and `hostedZone` is absent,
construction fails with the hosted-zone-required error, whatever the domain
string is — the hosted-zone-presence check precedes format validation, so no
format hypothesis is needed. -/
theorem c3_hosted_zone_required (props : WafHttpApiProps) (d : String)
    (hd : props.domain = some d) (hz : props.hostedZone = Option.none) :
    wafHttpApiResolve props = .error (.hostedZoneRequired d) := by
  unfold wafHttpApiResolve resolveDomainStage
  rw [hd, hz]
  rfl

/-- Witness for C3 at a malformed domain: `"not_a--valid"` fails format
validation (underscore), yet without a hosted zone the resolver raises
`hostedZoneRequired`, not the format error. -/
theorem c3_hosted_zone_required_witness :
    wafHttpApiResolve ⟨some "not_a--valid", Option.none, Option.none, Option.none⟩ =
      .error (.hostedZoneRequired "not_a--valid") ∧
    validateDomainFormat "not_a--valid" = .error .patternMismatch :=
  ⟨c3_hosted_zone_required _ _ rfl rfl, rfl⟩

/-! ## C7 -/

/-- **C7 (amended).** Splitting the certificate ARN on `":"`: with at least
four segments and a fourth segment other than `us-east-1`, validation fails
with the region-mismatch error naming the mandated region `us-east-1`; a
*non-empty* ARN with fewer than four segments fails with the
invalid-ARN-format error; the empty ARN fails with the ARN-not-available
error first. -/
theorem c7_certificate_region (arn : String) :
    (4 ≤ (jsSplit ':' arn).length → (jsSplit ':' arn).getD 3 "" ≠ "us-east-1" →
      validateCertificateRegion arn =
        .error (.regionMismatch ((jsSplit ':' arn).getD 3 "") "us-east-1")) ∧
    (arn ≠ "" → (jsSplit ':' arn).length < 4 →
      validateCertificateRegion arn = .error (.invalidArnFormat arn)) ∧
    (arn = "" → validateCertificateRegion arn = .error .arnNotAvailable) := by
  refine ⟨?_, ?_, ?_⟩
  · intro h4 hne
    have harn : arn ≠ "" := by
      intro he
      subst he
      simp [jsSplit, splitOnChar] at h4
    simp only [validateCertificateRegion, if_neg harn]
    rw [if_neg (Nat.not_lt.mpr h4), if_pos hne]
  · intro harn hlt
    simp only [validateCertificateRegion, if_neg harn]
    rw [if_pos hlt]
  · intro he
    subst he
    rfl

/-- **C7 counterexample.** The claim as stated predicts the
invalid-certificate-reference error for *every* ARN with fewer than four
colon-separated segments; the empty ARN splits into one segment but hits the
earlier ARN-not-available check instead. -/
theorem c7_counterexample :
    validateCertificateRegion "" = .error .arnNotAvailable ∧
    (jsSplit ':' "").length < 4 ∧
    (Except.error CertificateError.arnNotAvailable : Except CertificateError Unit) ≠
      .error (.invalidArnFormat "") :=
  ⟨rfl, by decide, by
    intro h
    exact absurd (Except.error.inj h) (by decide)⟩

/-- Witness for C7 at the concrete wrong-region ARN of the spec's scenario D. -/
theorem c7_certificate_region_witness :
    validateCertificateRegion "arn:aws:acm:us-west-2:123456789012:certificate/abc" =
      .error (.regionMismatch "us-west-2" "us-east-1") := by
  have h := (c7_certificate_region "arn:aws:acm:us-west-2:123456789012:certificate/abc").1
      (by decide) (by decide)
  rw [h]
  rfl

/-! ## C9 -/

/-- **C9.** On every successful resolution: with `wafRules` unsupplied the
WebACL rule list is exactly the two managed-rule-group entries (IP reputation
at priority 1, common rule set at priority 2, override-action none, metrics
and sampled requests enabled); with `wafRules` supplied, the supplied sequence
is the rule list verbatim. -/
theorem c9_waf_rules (props : WafHttpApiProps) (r : ResolvedConfig)
    (hok : wafHttpApiResolve props = .ok r) :
    (props.wafRules = Option.none →
      r.rules =
        [ { name := "AWS-AWSManagedRulesAmazonIpReputationList"
            priority := 1
            statement := .managedRuleGroup ⟨"AWS", "AWSManagedRulesAmazonIpReputationList"⟩
            overrideAction := some .none
            action := Option.none
            visibilityConfig := ⟨true, "awsManagedRulesAmazonIpReputationList", true⟩ },
          { name := "AWS-AWSManagedRulesCommonRuleSet"
            priority := 2
            statement := .managedRuleGroup ⟨"AWS", "AWSManagedRulesCommonRuleSet"⟩
            overrideAction := some .none
            action := Option.none
            visibilityConfig := ⟨true, "awsManagedRulesCommonRuleSet", true⟩ } ]) ∧
    (∀ rs, props.wafRules = some rs → r.rules = rs) := by
  have hr := resolve_ok_rules hok
  constructor
  · intro hn
    rw [hr, hn]
    rfl
  · intro rs hs
    rw [hr, hs]
    rfl

/-- Witness for C9: the no-input bundle resolves with the two default rules,
and a bundle with a singleton custom rule list keeps it verbatim. -/
theorem c9_waf_rules_witness :
    noInputResolved.rules = createDefaultRules ∧
    ({ customDomain := Option.none
       certificate := Option.none
       aRecordCreated := false
       aaaaRecordCreated := false
       rules := [⟨"RateLimitRule", 10, .other "rateBasedStatement", Option.none,
                  some "block", ⟨true, "RateLimitRule", true⟩⟩]
       warnings := [] } : ResolvedConfig).rules =
      [⟨"RateLimitRule", 10, .other "rateBasedStatement", Option.none,
        some "block", ⟨true, "RateLimitRule", true⟩⟩] :=
  ⟨by
    have h := (c9_waf_rules noInputProps noInputResolved rfl).1 rfl
    rw [h]
    rfl,
   (c9_waf_rules
      ⟨Option.none, Option.none, Option.none,
       some [⟨"RateLimitRule", 10, .other "rateBasedStatement", Option.none,
              some "block", ⟨true, "RateLimitRule", true⟩⟩]⟩
      _ rfl).2 _ rfl⟩

/-! ## C10 -/

/-- **C10.** The empty-string domain without a hosted zone fails with the
hosted-zone-required error, not the invalid-domain-format error (the presence
check is `props.domain !== undefined`, so `""` counts as present) — even
though format validation would reject `""` as empty. -/
theorem c10_empty_domain_requires_zone :
    wafHttpApiResolve ⟨some "", Option.none, Option.none, Option.none⟩ =
      .error (.hostedZoneRequired "") ∧
    validateDomainFormat "" = .error .emptyDomain :=
  ⟨rfl, rfl⟩

end WafHttpApi

namespace WafHttpApi

/-! ## Stage behavior when the domain is absent or empty -/

/-- When `props.domain` is falsy, the hosted-zone stage never fails: it either
does nothing or records the zone-without-domain advisory. -/
theorem zoneStage_of_domain_falsy {props : WafHttpApiProps}
    (h : strTruthy props.domain = false) :
    resolveHostedZoneStage props =
      .ok (if props.hostedZone.isSome then [Warning.hostedZoneWithoutDomainIgnored] else []) := by
  cases hz : props.hostedZone <;> simp [resolveHostedZoneStage, hz, h]

/-- When `props.domain` is falsy, the certificate stage either fails (region
validation of a supplied certificate) or yields no effective certificate. -/
theorem certStage_of_domain_falsy {props : WafHttpApiProps}
    (h : strTruthy props.domain = false) :
    (∃ e, resolveCertificateStage props = .error e) ∨
      (∃ ws, resolveCertificateStage props = .ok (Option.none, ws)) := by
  cases hc : props.certificate with
  | none =>
    right
    exact ⟨[], by simp [resolveCertificateStage, hc, h]⟩
  | some arn =>
    cases hr : validateCertificateRegion arn with
    | error e =>
      left
      exact ⟨.certificateValidationFailed e, by simp [resolveCertificateStage, hc, hr]⟩
    | ok u =>
      right
      cases u
      exact ⟨[Warning.certificateWithoutDomainIgnored],
        by simp [resolveCertificateStage, hc, hr, h]⟩

/-! ## C1 -/

/-- **C1 (amended).** A certificate supplied without a domain still goes
through region validation first: if that validation fails, construction fails
with the wrapped certificate error; if it succeeds, resolution succeeds, the
resolved certificate is absent, and the certificate-without-domain advisory is
recorded. -/
theorem c1_certificate_without_domain (props : WafHttpApiProps) (arn : String)
    (hd : props.domain = Option.none) (hc : props.certificate = some arn) :
    (validateCertificateRegion arn = .ok () →
      ∃ r, wafHttpApiResolve props = .ok r ∧ r.certificate = Option.none ∧
        Warning.certificateWithoutDomainIgnored ∈ r.warnings) ∧
    (∀ e, validateCertificateRegion arn = .error e →
      wafHttpApiResolve props = .error (.certificateValidationFailed e)) := by
  have hds : resolveDomainStage props = .ok Option.none := by
    simp [resolveDomainStage, hd]
  have hfalsy : strTruthy props.domain = false := by simp [strTruthy, hd]
  constructor
  · intro hr
    have hcs : resolveCertificateStage props =
        .ok (Option.none, [.certificateWithoutDomainIgnored]) := by
      simp [resolveCertificateStage, hc, hr, hfalsy]
    refine ⟨{ customDomain := Option.none
              certificate := Option.none
              aRecordCreated := dnsRecordsCreated props
              aaaaRecordCreated := dnsRecordsCreated props
              rules := resolveWafRules props.wafRules
              warnings := [.certificateWithoutDomainIgnored] ++
                (if props.hostedZone.isSome then [Warning.hostedZoneWithoutDomainIgnored]
                 else []) }, ?_, rfl, by simp⟩
    unfold wafHttpApiResolve
    rw [hds, hcs, zoneStage_of_domain_falsy hfalsy]
  · intro e hr
    have hcs : resolveCertificateStage props = .error (.certificateValidationFailed e) := by
      simp [resolveCertificateStage, hc, hr]
    unfold wafHttpApiResolve
    rw [hds, hcs]

/-- **C1 counterexample.** The claim as stated promises success for *every*
certificate supplied without a domain; a certificate whose ARN carries the
region `us-west-2` makes the constructor throw instead. -/
theorem c1_counterexample :
    wafHttpApiResolve ⟨Option.none,
        some "arn:aws:acm:us-west-2:123456789012:certificate/abc",
        Option.none, Option.none⟩ =
      .error (.certificateValidationFailed (.regionMismatch "us-west-2" "us-east-1")) := rfl

/-- Witness for C1 with a region-valid certificate and no domain. -/
theorem c1_certificate_without_domain_witness :
    ∃ r, wafHttpApiResolve ⟨Option.none,
        some "arn:aws:acm:us-east-1:123456789012:certificate/abc",
        Option.none, Option.none⟩ = .ok r ∧
      r.certificate = Option.none ∧
      Warning.certificateWithoutDomainIgnored ∈ r.warnings :=
  (c1_certificate_without_domain _ "arn:aws:acm:us-east-1:123456789012:certificate/abc"
    rfl rfl).1 rfl

/-! ## C2 -/

/-- **C2 (amended).** With domain, hosted zone and certificate all present
and a well-formed domain, the certificate block (lines 725-793) runs *before*
the hosted-zone compatibility block (lines 796-829): a failing certificate
region validation surfaces as the certificate error regardless of whether the
domain matches the zone. -/
theorem c2_certificate_checked_before_zone (props : WafHttpApiProps)
    (d z arn : String) (e : CertificateError)
    (hd : props.domain = some d) (hz : props.hostedZone = some z)
    (hc : props.certificate = some arn)
    (hdf : validateDomainFormat d = .ok ())
    (hr : validateCertificateRegion arn = .error e) :
    wafHttpApiResolve props = .error (.certificateValidationFailed e) := by
  have hds : resolveDomainStage props = .ok (some d) := by
    simp [resolveDomainStage, hd, hz, hdf]
  have hcs : resolveCertificateStage props = .error (.certificateValidationFailed e) := by
    simp [resolveCertificateStage, hc, hr]
  unfold wafHttpApiResolve
  rw [hds, hcs]

/-- **C2 counterexample.** `api.other.com` does not belong to zone
`example.com` *and* the certificate region mismatches, yet resolution fails
with the certificate-region error, not the zone/domain-mismatch error the
claim predicts. -/
theorem c2_counterexample :
    wafHttpApiResolve ⟨some "api.other.com",
        some "arn:aws:acm:us-west-2:123456789012:certificate/abc",
        some "example.com", Option.none⟩ =
      .error (.certificateValidationFailed (.regionMismatch "us-west-2" "us-east-1")) ∧
    validateHostedZoneDomainCompatibility "example.com" "api.other.com" =
      .error (.zoneDomainMismatch "api.other.com" "example.com") :=
  ⟨rfl, rfl⟩

/-- Witness for C2 at the concrete mismatching bundle. -/
theorem c2_certificate_checked_before_zone_witness :
    wafHttpApiResolve ⟨some "api.other.com",
        some "arn:aws:acm:us-west-2:123456789012:certificate/abc",
        some "example.com", Option.none⟩ =
      .error (.certificateValidationFailed (.regionMismatch "us-west-2" "us-east-1")) :=
  c2_certificate_checked_before_zone _ "api.other.com" "example.com"
    "arn:aws:acm:us-west-2:123456789012:certificate/abc"
    (.regionMismatch "us-west-2" "us-east-1") rfl rfl rfl rfl rfl

/-! ## C8 -/

/-- **C8.** Invariant of every successful resolution with no domain supplied:
the custom domain, the resolved certificate, and both DNS records are absent;
and in particular the bundle with neither domain nor certificate nor hosted
zone resolves successfully in exactly that shape. -/
theorem c8_no_domain_invariant :
    (∀ (props : WafHttpApiProps) (r : ResolvedConfig), props.domain = Option.none →
      wafHttpApiResolve props = .ok r →
      r.customDomain = Option.none ∧ r.certificate = Option.none ∧
        r.aRecordCreated = false ∧ r.aaaaRecordCreated = false) ∧
    (∀ rules, ∃ r,
      wafHttpApiResolve ⟨Option.none, Option.none, Option.none, rules⟩ = .ok r ∧
        r.customDomain = Option.none ∧ r.certificate = Option.none ∧
        r.aRecordCreated = false ∧ r.aaaaRecordCreated = false) := by
  constructor
  · intro props r hd hok
    have hds : resolveDomainStage props = .ok Option.none := by
      simp [resolveDomainStage, hd]
    have hfalsy : strTruthy props.domain = false := by simp [strTruthy, hd]
    have hdns : dnsRecordsCreated props = false := by
      simp [dnsRecordsCreated, hfalsy]
    unfold wafHttpApiResolve at hok
    rw [hds, zoneStage_of_domain_falsy hfalsy] at hok
    rcases certStage_of_domain_falsy hfalsy with ⟨e, hcs⟩ | ⟨ws, hcs⟩
    · rw [hcs] at hok
      cases hok
    · rw [hcs, hdns] at hok
      cases hok
      exact ⟨rfl, rfl, rfl, rfl⟩
  · intro rules
    exact ⟨{ customDomain := Option.none
             certificate := Option.none
             aRecordCreated := false
             aaaaRecordCreated := false
             rules := resolveWafRules rules
             warnings := [] }, rfl, rfl, rfl, rfl, rfl⟩

/-- Witness for C8 at the no-input bundle. -/
theorem c8_no_domain_invariant_witness :
    (noInputResolved.customDomain = Option.none ∧ noInputResolved.certificate = Option.none ∧
      noInputResolved.aRecordCreated = false ∧ noInputResolved.aaaaRecordCreated = false) ∧
    (∃ r, wafHttpApiResolve ⟨Option.none, Option.none, Option.none, Option.none⟩ = .ok r ∧
      r.customDomain = Option.none ∧ r.certificate = Option.none ∧
      r.aRecordCreated = false ∧ r.aaaaRecordCreated = false) :=
  ⟨c8_no_domain_invariant.1 noInputProps noInputResolved rfl rfl,
   c8_no_domain_invariant.2 Option.none⟩

end WafHttpApi

namespace WafHttpApi

/-! ## C4 -/

/-- Claim-side acceptance predicate of C4, following the spec's words: after
normalization, the domain equals the zone name (apex), or ends with
`"." ++ zoneName` (subdomain), or starts with `"*."` and its remainder equals
the zone name or ends with `"." ++ zoneName` (wildcard apex / subdomain). -/
def specZoneAccepts (zoneName domain : List Char) : Bool :=
  decide (domain = zoneName) || ('.' :: zoneName).isSuffixOf domain ||
    (decide (domain.take 2 = ['*', '.']) &&
      (decide (domain.drop 2 = zoneName) ||
        ('.' :: zoneName).isSuffixOf (domain.drop 2)))

/-- **C4 (amended).** For nonempty zone name and domain, hosted-zone/domain
compatibility validation succeeds exactly on the normalized apex / subdomain /
wildcard cases of the claim, and in every other such case fails with the
zone/domain-mismatch error carrying both original values. -/
theorem c4_zone_compatibility (zoneName domain : String)
    (hz : zoneName ≠ "") (hd : domain ≠ "") :
    validateHostedZoneDomainCompatibility zoneName domain =
      (if specZoneAccepts (normalizeName zoneName.data) (normalizeName domain.data)
       then .ok () else .error (.zoneDomainMismatch domain zoneName)) := by
  unfold validateHostedZoneDomainCompatibility
  rw [if_neg hd, if_neg hz]
  by_cases h1 : normalizeName domain.data = normalizeName zoneName.data
  · simp [specZoneAccepts, h1]
  · by_cases h2 :
        ('.' :: normalizeName zoneName.data).isSuffixOf (normalizeName domain.data) = true
    · simp [specZoneAccepts, h1, h2]
    · by_cases h3 : (normalizeName domain.data).take 2 = ['*', '.']
      · by_cases h4 : (normalizeName domain.data).drop 2 = normalizeName zoneName.data
        · simp [specZoneAccepts, h1, h2, h3, h4]
        · by_cases h5 :
              ('.' :: normalizeName zoneName.data).isSuffixOf
                ((normalizeName domain.data).drop 2) = true
          · simp [specZoneAccepts, h1, h2, h3, h4, h5]
          · simp [specZoneAccepts, h1, h2, h3, h4, h5]
      · simp [specZoneAccepts, h1, h2, h3]

/-- **C4 counterexample.** The claim quantifies over *every* pair; for the
empty domain the validator raises its missing-parameters error, not the
zone/domain-mismatch error the claim prescribes for every non-accepted
pair. -/
theorem c4_counterexample :
    validateHostedZoneDomainCompatibility "example.com" "" = .error .missingParams ∧
    (Except.error ZoneCompatError.missingParams : Except ZoneCompatError Unit) ≠
      .error (.zoneDomainMismatch "" "example.com") ∧
    specZoneAccepts (normalizeName "example.com".data) (normalizeName "".data) = false :=
  ⟨rfl,
   by
    intro h
    exact absurd (Except.error.inj h) (by decide),
   by decide⟩

/-- Witness for C4: a mixed-case zone name with trailing dot accepts a
subdomain, and a mismatching pair yields the mismatch error. -/
theorem c4_zone_compatibility_witness :
    validateHostedZoneDomainCompatibility "Example.COM." "api.example.com" = .ok () ∧
    validateHostedZoneDomainCompatibility "different.com" "api.example.com" =
      .error (.zoneDomainMismatch "api.example.com" "different.com") := by
  constructor
  · have h := c4_zone_compatibility "Example.COM." "api.example.com" (by decide) (by decide)
    rw [h]
    rfl
  · have h := c4_zone_compatibility "different.com" "api.example.com" (by decide) (by decide)
    rw [h]
    rfl

end WafHttpApi

namespace WafHttpApi

/-! ## Facts about the regex model (towards C5 and C6) -/

theorem isLabelChar_star : isLabelChar '*' = false := by decide

theorem isLabelChar_dot : isLabelChar '.' = false := by decide

theorem isLabelChar_of_isAlphanum {c : Char} (h : c.isAlphanum = true) :
    isLabelChar c = true := by
  simp [isLabelChar, h]

theorem isLabelChar_of_isAlpha {c : Char} (h : c.isAlpha = true) :
    isLabelChar c = true := by
  simp [isLabelChar, Char.isAlphanum, h]

theorem splitOnChar_ne_nil (sep : Char) (l : List Char) : splitOnChar sep l ≠ [] := by
  cases l with
  | nil => simp [splitOnChar]
  | cons c cs =>
    simp only [splitOnChar]
    split <;> simp

theorem splitOnChar_of_not_mem {sep : Char} {l : List Char} (h : sep ∉ l) :
    splitOnChar sep l = [l] := by
  induction l with
  | nil => rfl
  | cons c cs ih =>
    have hc : ¬ c = sep := fun he => h (by subst he; exact List.mem_cons_self c cs)
    have hcs : sep ∉ cs := fun hm => h (List.mem_cons_of_mem c hm)
    simp [splitOnChar, hc, ih hcs]

theorem splitOnChar_append {sep : Char} {p rest : List Char} (h : sep ∉ p) :
    splitOnChar sep (p ++ sep :: rest) = p :: splitOnChar sep rest := by
  induction p with
  | nil => simp [splitOnChar]
  | cons c cs ih =>
    have hc : ¬ c = sep := fun he => h (by subst he; exact List.mem_cons_self c cs)
    have hcs : sep ∉ cs := fun hm => h (List.mem_cons_of_mem c hm)
    simp [splitOnChar, hc, ih hcs]

/-- Every character of a string is either the separator or belongs to one of
the parts the separator splits it into. -/
theorem mem_of_mem_splitOnChar {sep c : Char} {l : List Char} (hc : c ∈ l) :
    c = sep ∨ ∃ p ∈ splitOnChar sep l, c ∈ p := by
  induction l with
  | nil => cases hc
  | cons a cs ih =>
    rcases hr : splitOnChar sep cs with _ | ⟨r0, rs⟩
    · exact absurd hr (splitOnChar_ne_nil sep cs)
    by_cases ha : a = sep
    · have heq : splitOnChar sep (a :: cs) = [] :: splitOnChar sep cs := by
        simp [splitOnChar, ha]
      rcases List.mem_cons.mp hc with rfl | hmem
      · exact Or.inl ha
      · rcases ih hmem with h | ⟨p, hp, hcp⟩
        · exact Or.inl h
        · exact Or.inr ⟨p, by rw [heq]; exact List.mem_cons_of_mem _ hp, hcp⟩
    · have heq : splitOnChar sep (a :: cs) = (a :: r0) :: rs := by
        simp [splitOnChar, ha, hr]
      rcases List.mem_cons.mp hc with rfl | hmem
      · exact Or.inr ⟨c :: r0, by rw [heq]; exact List.mem_cons_self _ _,
          List.mem_cons_self _ _⟩
      · rcases ih hmem with h | ⟨p, hp, hcp⟩
        · exact Or.inl h
        · rw [hr] at hp
          rcases List.mem_cons.mp hp with rfl | hp'
          · exact Or.inr ⟨a :: p, by rw [heq]; exact List.mem_cons_self _ _,
              List.mem_cons_of_mem _ hcp⟩
          · exact Or.inr ⟨p, by rw [heq]; exact List.mem_cons_of_mem _ hp', hcp⟩

/-- A string matching the label alternative consists of `[a-zA-Z0-9-]`
characters only. -/
theorem isLabelChar_of_matchesLabel {l : List Char} (h : matchesLabel l = true)
    {c : Char} (hc : c ∈ l) : isLabelChar c = true := by
  simp only [matchesLabel, Bool.and_eq_true, Bool.not_eq_true', decide_eq_true_eq] at h
  obtain ⟨⟨⟨⟨hne, _⟩, hhead⟩, hlast⟩, hmid⟩ := h
  have hlne : l ≠ [] := by
    intro he
    rw [he] at hne
    exact absurd hne (by decide)
  obtain ⟨M, b, hMb⟩ : ∃ M b, l = M ++ [b] :=
    ⟨l.dropLast, l.getLast hlne, (List.dropLast_append_getLast hlne).symm⟩
  subst hMb
  have hblast : (M ++ [b]).getLastD ' ' = b := List.getLastD_concat _ _ _
  rcases List.mem_append.mp hc with hcM | hcb
  · cases M with
    | nil => cases hcM
    | cons m0 M' =>
      rcases List.mem_cons.mp hcM with rfl | hcM'
      · exact isLabelChar_of_isAlphanum hhead
      · have hdl : ((m0 :: M') ++ [b]).dropLast.drop 1 = M' := by
          rw [List.dropLast_concat]
          rfl
        rw [hdl] at hmid
        exact List.all_eq_true.mp hmid c hcM'
  · have : c = b := by simpa using hcb
    subst this
    rw [hblast] at hlast
    exact isLabelChar_of_isAlphanum hlast

/-- Claim-side label grammar of C5, following the spec's words: a label is
composed of alphanumerics and internal hyphens only — no leading or trailing
hyphen — and is at most 63 characters long (and nonempty, being a label). -/
def specLabelOk (l : List Char) : Bool :=
  !l.isEmpty && decide (l.length ≤ 63) && l.all isLabelChar &&
    !(l.headD ' ' == '-') && !(l.getLastD ' ' == '-')

/-- Claim-side TLD grammar of C5: at least 2 alphabetic characters. -/
def specTldOk (l : List Char) : Bool :=
  decide (2 ≤ l.length) && l.all Char.isAlpha

/-- A string satisfying the claim's label grammar (nonempty, ≤63 characters,
alphanumerics and hyphens only, no leading or trailing hyphen) matches the
regex label alternative. -/
theorem matchesLabel_of_specLabelOk {l : List Char} (h : specLabelOk l = true) :
    matchesLabel l = true := by
  simp only [specLabelOk, Bool.and_eq_true, Bool.not_eq_true', beq_eq_false_iff_ne,
    ne_eq, decide_eq_true_eq] at h
  obtain ⟨⟨⟨⟨hne, hlen⟩, hall⟩, hhead⟩, hlast⟩ := h
  have hlne : l ≠ [] := by
    intro he
    rw [he] at hne
    exact absurd hne (by decide)
  have alnum_of : ∀ c ∈ l, ¬ c = '-' → c.isAlphanum = true := by
    intro c hcl hcd
    have := List.all_eq_true.mp hall c hcl
    simp only [isLabelChar, Bool.or_eq_true, beq_iff_eq] at this
    rcases this with h' | h'
    · exact h'
    · exact absurd h' hcd
  have hheadmem : l.headD ' ' ∈ l := by
    cases l with
    | nil => exact absurd rfl hlne
    | cons a t => exact List.mem_cons_self a t
  have hlastmem : l.getLastD ' ' ∈ l := by
    obtain ⟨M, b, hMb⟩ : ∃ M b, l = M ++ [b] :=
      ⟨l.dropLast, l.getLast hlne, (List.dropLast_append_getLast hlne).symm⟩
    rw [hMb, List.getLastD_concat]
    simp
  have hmid : (l.dropLast.drop 1).all isLabelChar = true := by
    rw [List.all_eq_true]
    intro c hcm
    exact List.all_eq_true.mp hall c
      (List.dropLast_subset l (List.drop_subset 1 l.dropLast hcm))
  simp only [matchesLabel, Bool.and_eq_true, Bool.not_eq_true', decide_eq_true_eq]
  exact ⟨⟨⟨⟨by simpa [List.isEmpty_iff] using hlne, hlen⟩,
    alnum_of _ hheadmem hhead⟩, alnum_of _ hlastmem hlast⟩, hmid⟩

/-- A string satisfying the claim's TLD grammar matches the regex TLD part
(the two formulas are definitionally the same). -/
theorem matchesTld_of_specTldOk {t : List Char} (h : specTldOk t = true) :
    matchesTld t = true := h

theorem isAlpha_of_matchesTld {t : List Char} (h : matchesTld t = true)
    {c : Char} (hc : c ∈ t) : c.isAlpha = true := by
  simp only [matchesTld, Bool.and_eq_true, decide_eq_true_eq] at h
  exact List.all_eq_true.mp h.2 c hc

/-- No `*` occurs in a string matching the regex body. -/
theorem star_not_mem_of_matchesBody {s : List Char} (h : matchesBody s = true) :
    '*' ∉ s := by
  intro hs
  rcases @mem_of_mem_splitOnChar '.' '*' s hs with h1 | ⟨p, hp, hsp⟩
  · exact absurd h1 (by decide)
  · simp only [matchesBody, Bool.and_eq_true, decide_eq_true_eq] at h
    obtain ⟨⟨_, hlabels⟩, htld⟩ := h
    have hne : splitOnChar '.' s ≠ [] := splitOnChar_ne_nil _ _
    rw [← List.dropLast_append_getLast hne] at hp
    rcases List.mem_append.mp hp with hp' | hp'
    · have hlab := List.all_eq_true.mp hlabels p hp'
      have := isLabelChar_of_matchesLabel hlab hsp
      rw [isLabelChar_star] at this
      cases this
    · have hpl : p = (splitOnChar '.' s).getLast hne := by simpa using hp'
      have hgd : (splitOnChar '.' s).getLast?.getD [] = (splitOnChar '.' s).getLast hne := by
        rw [List.getLast?_eq_getLast _ hne]
        rfl
      rw [hgd] at htld
      rw [hpl] at hsp
      have := isAlpha_of_matchesTld htld hsp
      exact absurd this (by decide)

/-- A string accepted by the domain regex contains at most one `*`, and none
beyond position 0. -/
theorem star_bound_of_domainRegexTest {s : List Char} (h : domainRegexTest s = true) :
    s.count '*' ≤ 1 ∧ '*' ∉ s.drop 1 := by
  unfold domainRegexTest at h
  by_cases hw : s.take 2 = ['*', '.']
  · rw [if_pos hw] at h
    obtain ⟨rest, hs⟩ : ∃ rest, s = '*' :: '.' :: rest := by
      rcases s with _ | ⟨a, _ | ⟨b, t⟩⟩
      · simp at hw
      · simp at hw
      · simp at hw
        obtain ⟨rfl, rfl⟩ := hw
        exact ⟨t, rfl⟩
    subst hs
    have hns : '*' ∉ rest := star_not_mem_of_matchesBody (by simpa using h)
    refine ⟨?_, ?_⟩
    · simp [List.count_cons, List.count_eq_zero.mpr hns]
    · intro hmem
      simp only [List.drop_one, List.tail_cons] at hmem
      rcases List.mem_cons.mp hmem with h' | h'
      · exact absurd h' (by decide)
      · exact hns h'
  · rw [if_neg hw] at h
    have hns := star_not_mem_of_matchesBody h
    exact ⟨by simp [List.count_eq_zero.mpr hns],
      fun hm => hns (List.drop_subset 1 s hm)⟩

end WafHttpApi

namespace WafHttpApi

/-! ## C6 -/

/-- **C6.** Every domain containing two or more `*` characters, or a `*` at
any position other than position 0, is rejected by `validateDomainFormat` with
one of its invalid-domain-format errors. -/
theorem c6_misplaced_wildcards_rejected (domain : String)
    (h : 2 ≤ domain.data.count '*' ∨ '*' ∈ domain.data.drop 1) :
    ∃ e, validateDomainFormat domain = .error e := by
  unfold validateDomainFormat validateDomainFormatChars
  by_cases h1 : domain.data = []
  · exact ⟨.emptyDomain, by rw [if_pos h1]⟩
  rw [if_neg h1]
  by_cases h2 : 253 < domain.data.length
  · exact ⟨.tooLong domain.data.length, by rw [if_pos h2]⟩
  rw [if_neg h2]
  by_cases h3 : wildcardViolation domain.data = true
  · exact ⟨.multipleWildcards, by rw [if_pos h3]⟩
  rw [if_neg h3]
  have h4 : ¬ domainRegexTest domain.data = true := by
    intro hc
    have hb := star_bound_of_domainRegexTest hc
    rcases h with hcount | hdrop
    · have := hb.1
      omega
    · exact hb.2 hdrop
  rw [if_neg h4]
  exact ⟨.patternMismatch, rfl⟩

/-- Witness for C6 at a double wildcard and at an interior wildcard. -/
theorem c6_misplaced_wildcards_rejected_witness :
    (∃ e, validateDomainFormat "*.*.example.com" = .error e) ∧
    (∃ e, validateDomainFormat "api.*.example.com" = .error e) :=
  ⟨c6_misplaced_wildcards_rejected _ (Or.inl (by decide)),
   c6_misplaced_wildcards_rejected _ (Or.inr (by decide))⟩

/-! ## C5 -/

/-- Claim-side domain builder of C5: the dot-separated concatenation of the
labels and the TLD, with an optional single leading `*.`. -/
def joinDots : List (List Char) → List Char
  | [] => []
  | [p] => p
  | p :: ps => p ++ '.' :: joinDots ps

/-- The concrete domain string described by the claim's grammar. -/
def buildDomain (wildcard : Bool) (labels : List (List Char)) (tld : List Char) :
    List Char :=
  (if wildcard then ['*', '.'] else []) ++ joinDots (labels ++ [tld])

theorem joinDots_cons (p : List Char) (q : List (List Char)) (hq : q ≠ []) :
    joinDots (p :: q) = p ++ '.' :: joinDots q := by
  cases q with
  | nil => exact absurd rfl hq
  | cons q0 qs => rfl

theorem splitOnChar_joinDots {parts : List (List Char)} (h : parts ≠ [])
    (hnd : ∀ p ∈ parts, '.' ∉ p) :
    splitOnChar '.' (joinDots parts) = parts := by
  induction parts with
  | nil => exact absurd rfl h
  | cons p ps ih =>
    cases ps with
    | nil =>
      show splitOnChar '.' (joinDots [p]) = [p]
      exact splitOnChar_of_not_mem (hnd p (List.mem_cons_self p []))
    | cons q qs =>
      rw [joinDots_cons p (q :: qs) (by simp)]
      rw [splitOnChar_append (hnd p (List.mem_cons_self p _))]
      rw [ih (by simp) (fun r hr => hnd r (List.mem_cons_of_mem p hr))]

theorem dot_not_mem_of_specLabelOk {l : List Char} (h : specLabelOk l = true) :
    '.' ∉ l := by
  intro hm
  have hall : l.all isLabelChar = true := by
    simp only [specLabelOk, Bool.and_eq_true] at h
    exact h.1.1.2
  have := List.all_eq_true.mp hall '.' hm
  rw [isLabelChar_dot] at this
  cases this

theorem dot_not_mem_of_specTldOk {l : List Char} (h : specTldOk l = true) :
    '.' ∉ l := by
  intro hm
  have := isAlpha_of_matchesTld (matchesTld_of_specTldOk h) hm
  exact absurd this (by decide)

theorem take_two_ne {c : Char} (hc : c ≠ '*') (l : List Char) :
    ¬ ((c :: l).take 2 = ['*', '.']) := by
  intro he
  cases l with
  | nil => simp [List.take] at he
  | cons d t =>
    simp [List.take] at he
    exact hc he.1

/-- **C5.** Every domain of the accepted grammar — optional single leading
`*.`, one or more dot-separated labels satisfying the label grammar, a final
TLD of at least 2 alphabetic characters, total length at most 253 — passes
`validateDomainFormat`. -/
theorem c5_grammar_domains_accepted (wildcard : Bool) (labels : List (List Char))
    (tld : List Char) (hlabels : labels ≠ [])
    (hla : ∀ l ∈ labels, specLabelOk l = true) (htld : specTldOk tld = true)
    (hlen : (buildDomain wildcard labels tld).length ≤ 253) :
    validateDomainFormat (String.mk (buildDomain wildcard labels tld)) = .ok () := by
  have hnd : ∀ p ∈ labels ++ [tld], '.' ∉ p := by
    intro p hp
    rcases List.mem_append.mp hp with h' | h'
    · exact dot_not_mem_of_specLabelOk (hla p h')
    · have hpt : p = tld := by simpa using h'
      subst hpt
      exact dot_not_mem_of_specTldOk htld
  have hpne : (labels ++ [tld] : List (List Char)) ≠ [] := by simp
  have hsplit : splitOnChar '.' (joinDots (labels ++ [tld])) = labels ++ [tld] :=
    splitOnChar_joinDots hpne hnd
  have hbody : matchesBody (joinDots (labels ++ [tld])) = true := by
    simp only [matchesBody, hsplit, Bool.and_eq_true, decide_eq_true_eq]
    refine ⟨⟨?_, ?_⟩, ?_⟩
    · have h1 : 1 ≤ labels.length := List.length_pos.mpr hlabels
      rw [List.length_append, List.length_singleton]
      omega
    · rw [List.dropLast_concat]
      exact List.all_eq_true.mpr fun l hl => matchesLabel_of_specLabelOk (hla l hl)
    · rw [List.getLast?_concat]
      exact matchesTld_of_specTldOk htld
  cases wildcard with
  | true =>
    have hbd : buildDomain true labels tld =
        '*' :: '.' :: joinDots (labels ++ [tld]) := rfl
    show validateDomainFormatChars (buildDomain true labels tld) = .ok ()
    rw [hbd]
    rw [hbd] at hlen
    have hstar : '*' ∉ joinDots (labels ++ [tld]) := star_not_mem_of_matchesBody hbody
    have hcontains : (joinDots (labels ++ [tld])).contains '*' = false := by
      simp [List.contains, hstar]
    have htk : ('*' :: '.' :: joinDots (labels ++ [tld])).take 2 = ['*', '.'] := rfl
    have hwv : wildcardViolation ('*' :: '.' :: joinDots (labels ++ [tld])) = false := by
      unfold wildcardViolation
      rw [if_pos htk]
      exact hcontains
    have hrt : domainRegexTest ('*' :: '.' :: joinDots (labels ++ [tld])) = true := by
      unfold domainRegexTest
      rw [if_pos htk]
      exact hbody
    unfold validateDomainFormatChars
    rw [if_neg (by simp : ¬('*' :: '.' :: joinDots (labels ++ [tld]) = []))]
    rw [if_neg (by omega : ¬ 253 < ('*' :: '.' :: joinDots (labels ++ [tld])).length)]
    rw [if_neg (by simp [hwv]), if_pos hrt]
  | false =>
    obtain ⟨l0, ls, rfl⟩ : ∃ l0 ls, labels = l0 :: ls := by
      cases labels with
      | nil => exact absurd rfl hlabels
      | cons a b => exact ⟨a, b, rfl⟩
    have hl0 := hla l0 (List.mem_cons_self _ _)
    obtain ⟨c0, l0r, rfl⟩ : ∃ c0 l0r, l0 = c0 :: l0r := by
      cases l0 with
      | nil =>
        rw [show specLabelOk [] = false from by decide] at hl0
        cases hl0
      | cons a b => exact ⟨a, b, rfl⟩
    have hc0 : isLabelChar c0 = true := by
      have hall : (c0 :: l0r).all isLabelChar = true := by
        simp only [specLabelOk, Bool.and_eq_true] at hl0
        exact hl0.1.1.2
      exact List.all_eq_true.mp hall c0 (List.mem_cons_self _ _)
    have hc0star : c0 ≠ '*' := by
      intro he
      rw [he, isLabelChar_star] at hc0
      cases hc0
    have hjd : joinDots (((c0 :: l0r) :: ls) ++ [tld]) =
        c0 :: (l0r ++ '.' :: joinDots (ls ++ [tld])) := by
      rw [List.cons_append, joinDots_cons _ _ (by simp), List.cons_append]
    have hbd : buildDomain false ((c0 :: l0r) :: ls) tld =
        c0 :: (l0r ++ '.' :: joinDots (ls ++ [tld])) := by
      show joinDots (((c0 :: l0r) :: ls) ++ [tld]) = _
      exact hjd
    show validateDomainFormatChars (buildDomain false ((c0 :: l0r) :: ls) tld) = .ok ()
    rw [hbd]
    rw [hbd] at hlen
    have hbody' : matchesBody (c0 :: (l0r ++ '.' :: joinDots (ls ++ [tld]))) = true := by
      rw [← hjd]
      exact hbody
    have htk := take_two_ne hc0star (l0r ++ '.' :: joinDots (ls ++ [tld]))
    have hwv : wildcardViolation (c0 :: (l0r ++ '.' :: joinDots (ls ++ [tld]))) = false := by
      unfold wildcardViolation
      rw [if_neg htk]
    have hrt : domainRegexTest (c0 :: (l0r ++ '.' :: joinDots (ls ++ [tld]))) = true := by
      unfold domainRegexTest
      rw [if_neg htk]
      exact hbody'
    unfold validateDomainFormatChars
    rw [if_neg (by simp : ¬(c0 :: (l0r ++ '.' :: joinDots (ls ++ [tld])) = []))]
    rw [if_neg (by omega : ¬ 253 < (c0 :: (l0r ++ '.' :: joinDots (ls ++ [tld]))).length)]
    rw [if_neg (by simp [hwv]), if_pos hrt]

/-- Witness for C5 at the wildcard domain `*.api.example.com`. -/
theorem c5_grammar_domains_accepted_witness :
    validateDomainFormat (String.mk (buildDomain true
      [['a', 'p', 'i'], ['e', 'x', 'a', 'm', 'p', 'l', 'e']] ['c', 'o', 'm'])) =
      .ok () :=
  c5_grammar_domains_accepted true
    [['a', 'p', 'i'], ['e', 'x', 'a', 'm', 'p', 'l', 'e']] ['c', 'o', 'm']
    (by decide) (by decide) (by decide) (by decide)

end WafHttpApi
